import Mathlib

/-!
Verification of the partial-file writer in `src/transfers/partial_file.cpp`
(the `transfers` component of the Prusa-Firmware-Buddy repository).

The C++ code is shallowly embedded as executable Lean definitions.  Machine
integers (`uint32_t`, the 32-bit `size_t` of the STM32 target) are modelled
as `Nat`, with wrap-around made explicit (`% M32`) at the operations where
the source performs unsigned arithmetic whose wrapping is observable.

Effects are made explicit:
* the block-layer / filesystem environment (the `lseek` poke, the result of
  `usbh_msc_submit_request`, pool-slot acquisition, pool drain) is passed in
  as explicit oracle values consumed in program order;
* a call to `fatal_error` (which aborts the process) is modelled as the
  `none` result of `PartialFile.write`;
* sector submissions handed to (and accepted by) the block layer are
  collected in an explicit list so that theorems can talk about them;
* logging (`log_debug` / `log_error` / `print_progress`) has no observable
  effect and is not modelled; consequently the `last_progress_percent`
  field, which only gates logging, is omitted from the state.

The header `partial_file.hpp` is not part of the sources; the few entities
that live only there (`ValidPart` with its `merge`, the `State` record, the
pool cardinality `SectorPool::size`) are modelled from the spec and marked
as such in their doc comments.
-/

set_option maxRecDepth 100000

namespace Transfers

/-- Sector size of the block layer; `PartialFile::SECTOR_SIZE == FF_MAX_SS == 512`
(asserted by the `static_assert`s at the top of `partial_file.cpp`). -/
def SECTOR_SIZE : Nat := 512

/-- One above the largest `uint32_t` / 32-bit `size_t` value. -/
def M32 : Nat := 4294967296

/-- Wrapping 32-bit subtraction `a - b` as performed on `uint32_t`/`size_t`
operands in the source (`get_offset`, `has_valid_tail`). -/
def wsub32 (a b : Nat) : Nat := (a + (M32 - b % M32)) % M32

/-- Modelled from the spec: `ValidPart` is the closed-open byte interval
`[start, end)` declared in the missing header `partial_file.hpp`.  The C++
field `end` is a Lean keyword and is called `stop` here. -/
structure ValidPart where
  start : Nat
  stop : Nat
deriving DecidableEq

/-- Modelled from the spec: `ValidPart::merge(other)` unions the two ranges
when they overlap or touch and otherwise leaves `self` unchanged
(spec section 3: ranges are merged greedily whenever two overlap or touch;
section 4.9: merge unions overlapping/touching ranges). -/
def ValidPart.merge (a b : ValidPart) : ValidPart :=
  if b.start ≤ a.stop ∧ a.start ≤ b.stop then
    ⟨min a.start b.start, max a.stop b.stop⟩
  else a

/-- Modelled from the spec: `PartialFile::State` from the missing header:
the fixed total size plus the optional valid head and tail ranges. -/
structure State where
  total_size : Nat
  valid_head : Option ValidPart
  valid_tail : Option ValidPart
deriving DecidableEq

/-- One pool slot / block-layer request (`UsbhMscRequest`): the fields the
writer manipulates are the target LBA `sector_nbr` and the 512-byte buffer
`data` (bytes as `Nat`).  The constant fields (operation, lun, count,
callback plumbing) do not affect the verified behaviour. -/
structure UsbhMscRequest where
  sector_nbr : Nat
  data : List Nat
deriving DecidableEq

/-- A write request accepted by the block layer
(`usbh_msc_submit_request` returned `USBH_OK`): target LBA and buffer. -/
structure Submission where
  sector_nbr : Nat
  data : List Nat
deriving DecidableEq

/-- Outcome of one `PartialFile::write_current_sector` attempt, as
determined by the environment: the defensive `lseek` poke may fail, the
block layer may reject the request, or both may succeed. -/
inductive SubRes where
  | ok
  | pokeFail
  | submitFail
deriving DecidableEq

/-- The writer state of `PartialFile` (the pool bookkeeping is owned by
`SectorPool`, modelled separately; `last_progress_percent` and the
`file_lock` descriptor only feed logging and the poke oracle). -/
structure PartialFile where
  write_error : Bool
  first_sector_nbr : Nat
  current_sector : Option UsbhMscRequest
  current_offset : Nat
  state : State
deriving DecidableEq

/-- The C++ `memcpy(buf + off, src, src.length)`: overwrite `src.length`
bytes of `buf` starting at byte `off`. -/
def copyInto (buf : List Nat) (off : Nat) (src : List Nat) : List Nat :=
  buf.take off ++ src ++ buf.drop (off + src.length)

namespace PartialFile

/-- `PartialFile::get_sector_nbr` (partial_file.cpp lines 118-124):
`first_sector_nbr + offset / FF_MAX_SS`, plus one when `offset` is at or
past `total_size`; computed in `uint32_t`. -/
def get_sector_nbr (pf : PartialFile) (offset : Nat) : Nat :=
  (pf.first_sector_nbr + offset / SECTOR_SIZE
    + (if pf.state.total_size ≤ offset then 1 else 0)) % M32

/-- `PartialFile::get_offset` (lines 126-128):
`(sector_nbr - first_sector_nbr) * SECTOR_SIZE` in 32-bit arithmetic. -/
def get_offset (pf : PartialFile) (sector_nbr : Nat) : Nat :=
  (wsub32 sector_nbr pf.first_sector_nbr * SECTOR_SIZE) % M32

/-- `PartialFile::has_valid_head` (lines 285-287). -/
def has_valid_head (pf : PartialFile) (bytes : Nat) : Bool :=
  match pf.state.valid_head with
  | some h => decide (h.start = 0) && decide (bytes ≤ h.stop)
  | none => false

/-- `PartialFile::has_valid_tail` (lines 289-291): note the unsigned
subtraction `state.total_size - bytes`. -/
def has_valid_tail (pf : PartialFile) (bytes : Nat) : Bool :=
  match pf.state.valid_tail with
  | some t =>
      decide (t.start ≤ wsub32 pf.state.total_size bytes)
        && decide (t.stop = pf.state.total_size)
  | none => false

/-- `PartialFile::extend_valid_part` (lines 250-283).  The final progress
reporting (`get_percent_valid` / `print_progress`) only logs and is not
modelled. -/
def extend_valid_part (st : State) (new_part : ValidPart) : State :=
  -- extend head
  let vh : Option ValidPart :=
    match st.valid_head with
    | some h => some (h.merge new_part)
    | none => if new_part.start = 0 then some new_part else none
  let head_end : Nat := match vh with | some h => h.stop | none => 0
  -- extend tail
  let vt : Option ValidPart :=
    match st.valid_tail with
    | some t => some (t.merge new_part)
    | none => if head_end < new_part.start then some new_part else none
  -- does head spread to the end?
  let vt : Option ValidPart :=
    match vh with
    | some h => if h.stop = st.total_size then some h else vt
    | none => vt
  -- head met with tail?
  match vh, vt with
  | some h, some t =>
      { st with valid_head := some (h.merge t),
                valid_tail := some (t.merge (h.merge t)) }
  | _, _ => { st with valid_head := vh, valid_tail := vt }

/-- `PartialFile::discard_current_sector` (lines 174-179); the pool-slot
release is bookkeeping of the separately modelled pool. -/
def discard_current_sector (pf : PartialFile) : PartialFile :=
  { pf with current_sector := none }

/-- `PartialFile::seek` (lines 157-172): keep the buffered sector when the
new offset still falls into it, otherwise discard it.  The source's `seek`
always returns `true`; the returned `Bool` mirrors that. -/
def seek (pf : PartialFile) (offset : Nat) : Bool × PartialFile :=
  let new_sector := pf.get_sector_nbr offset
  match pf.current_sector with
  | some c =>
      if c.sector_nbr = new_sector then
        (true, { pf with current_offset := offset })
      else
        (true, { pf with current_offset := offset, current_sector := none })
  | none => (true, { pf with current_offset := offset })

/-- Result of `PartialFile::write_current_sector`: the returned status, the
updated writer, the accepted submissions (empty on failure) and the
remaining submission oracle. -/
structure WcsResult where
  status : Bool
  pf : PartialFile
  submitted : List Submission
  env : List SubRes
deriving DecidableEq

/-- Head of the submission-outcome oracle; an exhausted oracle means the
environment keeps succeeding. -/
def nextSub : List SubRes → SubRes × List SubRes
  | [] => (SubRes.ok, [])
  | s :: rest => (s, rest)

/-- Head of the pool-acquisition oracle (`true` = a slot was obtained,
`false` = `SectorPool::acquire` timed out and returned null); an exhausted
oracle means acquisition keeps succeeding. -/
def nextAcq : List Bool → Bool × List Bool
  | [] => (true, [])
  | b :: rest => (b, rest)

/-- `PartialFile::write_current_sector` (lines 130-155): poke the pinned
descriptor with `lseek` (failure aborts the submission), hand the request
to the block layer (a non-`USBH_OK` result aborts), and on success
optimistically extend the valid range with
`[start, min(start + SECTOR_SIZE, total_size))`.
The `none` case of `current_sector` is ruled out by the source's
`assert(current_sector != nullptr)` and is unreachable from the callers. -/
def write_current_sector (pf : PartialFile) (subs : List SubRes) : WcsResult :=
  match pf.current_sector with
  | none => ⟨false, pf, [], subs⟩
  | some c =>
    match nextSub subs with
    | (SubRes.pokeFail, rest) => ⟨false, pf, [], rest⟩
    | (SubRes.submitFail, rest) => ⟨false, pf, [], rest⟩
    | (SubRes.ok, rest) =>
      let start := pf.get_offset c.sector_nbr
      let stop := min (start + SECTOR_SIZE) pf.state.total_size
      ⟨true, { pf with state := extend_valid_part pf.state ⟨start, stop⟩ },
        [⟨c.sector_nbr, c.data⟩], rest⟩

/-- Result of `PartialFile::write`: the returned `bool`, the updated
writer, and the submissions accepted by the block layer during the call. -/
structure WriteResult where
  ok : Bool
  pf : PartialFile
  submitted : List Submission
deriving DecidableEq

/-- The sector-opening prologue of the `write` loop (lines 186-197): reuse
the buffered sector, or refuse when at/past end of file, or acquire a fresh
zeroed slot (`SectorPool::acquire` memsets the buffer, line 355) and stamp
it with the LBA of the current offset.  `none` covers both refusal cases
(past-end and acquisition timeout), which make `write` return `false` with
the writer otherwise unchanged. -/
def openSector (pf : PartialFile) (acqs : List Bool) :
    Option (UsbhMscRequest × List Bool) :=
  match pf.current_sector with
  | some c => some (c, acqs)
  | none =>
    if pf.state.total_size ≤ pf.current_offset then none
    else
      match nextAcq acqs with
      | (true, acqs') =>
          some (⟨pf.get_sector_nbr pf.current_offset,
                 List.replicate SECTOR_SIZE 0⟩, acqs')
      | (false, _) => none

/-- The `while (size)` loop of `PartialFile::write` (lines 184-223).
`fuel` only bounds the number of iterations so that the recursion is
structural: each iteration consumes at least one byte, so `write` passes
`data.length` and the `fuel = 0, data ≠ []` branch is never reached.
A `none` result models the `fatal_error` abort (line 210).  Note that the
source discards the status returned by `write_current_sector` (line 213). -/
def writeGo : Nat → PartialFile → List Nat → List Bool → List SubRes →
    Option WriteResult
  | _, pf, [], _, _ => some ⟨true, pf, []⟩
  | 0, pf, _ :: _, _, _ => some ⟨true, pf, []⟩
  | fuel + 1, pf, d :: ds, acqs, subs =>
    match openSector pf acqs with
    | none => some ⟨false, pf, []⟩
    | some (c, acqs') =>
      let sector_offset := pf.current_offset % SECTOR_SIZE
      let sector_remaining := SECTOR_SIZE - sector_offset
      let write_size := min (d :: ds).length sector_remaining
      let c' : UsbhMscRequest :=
        ⟨c.sector_nbr, copyInto c.data sector_offset ((d :: ds).take write_size)⟩
      let pf1 := { pf with current_sector := some c' }
      let next_offset := pf.current_offset + write_size
      if pf.state.total_size < next_offset then
        none
      else if pf.get_sector_nbr next_offset = c'.sector_nbr then
        writeGo fuel (pf1.seek next_offset).2 ((d :: ds).drop write_size) acqs' subs
      else
        -- the Bool returned by write_current_sector is not checked (line 213)
        let r := write_current_sector pf1 subs
        let pf2 := { r.pf with current_sector := none }
        match writeGo fuel (pf2.seek next_offset).2 ((d :: ds).drop write_size)
            acqs' r.env with
        | none => none
        | some w => some ⟨w.ok, w.pf, r.submitted ++ w.submitted⟩

/-- `PartialFile::write` (lines 181-226): refuse immediately when
`write_error` is set, otherwise run the loop. -/
def write (pf : PartialFile) (data : List Nat) (acqs : List Bool)
    (subs : List SubRes) : Option WriteResult :=
  if pf.write_error then some ⟨false, pf, []⟩
  else writeGo data.length pf data acqs subs

/-- Environment of one `PartialFile::sync` call: whether the double-buffer
slot acquisition succeeds, the outcome of the submission of the current
sector, and whether `sector_pool.sync` returns true (the pool drained
before the semaphore wait timed out). -/
structure SyncEnv where
  acquireOk : Bool
  sub : SubRes
  poolOk : Bool
deriving DecidableEq

/-- Result of `PartialFile::sync`. -/
structure SyncResult where
  ok : Bool
  pf : PartialFile
  submitted : List Submission
deriving DecidableEq

/-- `PartialFile::sync` (lines 228-248): when a sector is buffered, acquire
a second slot, copy the buffer into it, submit the original and install the
copy as the new `current_sector`; then drain the pool and report
`!write_error`. -/
def sync (pf : PartialFile) (e : SyncEnv) : SyncResult :=
  match pf.current_sector with
  | none =>
      if e.poolOk then ⟨!pf.write_error, pf, []⟩ else ⟨false, pf, []⟩
  | some c =>
      if e.acquireOk then
        let copied : UsbhMscRequest := ⟨c.sector_nbr, c.data⟩
        let r := write_current_sector pf [e.sub]
        let pf2 := { r.pf with current_sector := some copied }
        if r.status then
          if e.poolOk then ⟨!pf2.write_error, pf2, r.submitted⟩
          else ⟨false, pf2, r.submitted⟩
        else ⟨false, pf2, r.submitted⟩
      else ⟨false, pf, []⟩

/-- `PartialFile::usbh_msc_finished` (lines 385-391): the completion
callback; a non-`USBH_OK` result sets the sticky `write_error` flag (the
slot release is bookkeeping of the separately modelled pool). -/
def usbh_msc_finished (pf : PartialFile) (resultOk : Bool) : PartialFile :=
  if resultOk then pf else { pf with write_error := true }

/-- One externally driven operation on a `PartialFile`: a `write` call with
its environment oracles, a `seek`, a `sync` with its environment, or an
asynchronous completion callback. -/
inductive Op where
  | write (data : List Nat) (acqs : List Bool) (subs : List SubRes)
  | seek (offset : Nat)
  | sync (e : SyncEnv)
  | complete (resultOk : Bool)

/-- Apply one operation; `none` is the `fatal_error` abort inside `write`. -/
def step (pf : PartialFile) : Op → Option PartialFile
  | Op.write d a s => (write pf d a s).map WriteResult.pf
  | Op.seek o => some (pf.seek o).2
  | Op.sync e => some (sync pf e).pf
  | Op.complete r => some (usbh_msc_finished pf r)

/-- Run a sequence of operations. -/
def run (pf : PartialFile) : List Op → Option PartialFile
  | [] => some pf
  | o :: os => (step pf o).bind (fun pf' => run pf' os)

end PartialFile

namespace SectorPool

/-- Number of bits counted by `std::popcount` on the `uint32_t`
`slot_mask`. -/
def popcount32 (n : Nat) : Nat :=
  ((List.range 32).filter (fun i => n.testBit i)).length

/-- Modelled from the spec: the pool cardinality `SectorPool::size` lives
in the missing header; the spec (section 4.1) fixes a pool of exactly N
pre-allocated buffers with N small, e.g. 4. -/
def size : Nat := 4

/-- The constructor's initial mask `~0u << size` (line 318): bits at and
above `size` are permanently set, bits of the real slots are clear. -/
def initMask (size : Nat) : Nat := ((M32 - 1) * 2 ^ size) % M32

/-- `SectorPool::release` (lines 359-364): clear the slot's bit
(`slot_mask &= ~(1 << slot)`). -/
def release (mask slot : Nat) : Nat :=
  mask - (if mask.testBit slot then 2 ^ slot else 0)

/-- Number of free pool slots: clear bits of the mask in `[0, size)`
(a set bit means the slot is in use: `acquire` sets it, `release`
clears it). -/
def freeSlots (size mask : Nat) : Nat :=
  ((List.range size).filter (fun i => ¬ mask.testBit i)).length

/-- `SectorPool::sync` (lines 366-378): loop until
`std::popcount(slot_mask) == (int)(32 - avoid)`; each pass round the loop
waits on the binary semaphore, i.e. for one `release` from a completion
callback; the oracle `events` lists the slots released before the
semaphore wait times out, so an exhausted oracle is the timeout
(`xSemaphoreTake != pdPASS`), on which `sync` returns false. -/
def sync (mask avoid : Nat) (events : List Nat) : Bool :=
  if popcount32 mask = 32 - avoid then true
  else
    match events with
    | [] => false
    | s :: rest => sync (release mask s) avoid rest

end SectorPool

/-! Decidable invariants and the range-growth relation used to state the
monotonicity claims about `valid_head` / `valid_tail`. -/

/-- Range `a` is contained in range `b` (so going from `a` to `b` never
loses bytes: the range has not shrunk). -/
def partLEB (a b : ValidPart) : Bool :=
  decide (b.start ≤ a.start) && decide (a.stop ≤ b.stop)

/-- An optional range never shrinks: a present range stays present and
grows (a missing one may appear). -/
def optGrowsB : Option ValidPart → Option ValidPart → Bool
  | none, _ => true
  | some _, none => false
  | some a, some b => partLEB a b

/-- Neither the head range nor the tail range shrinks between the two
states. -/
def growsB (s1 s2 : State) : Bool :=
  optGrowsB s1.valid_head s2.valid_head
    && optGrowsB s1.valid_tail s2.valid_tail

/-- The state invariant of the range bookkeeping: a present head starts at
byte 0 and ends within the file; a present tail is well-formed and ends
within the file (the spec additionally claims the tail ends at
`total_size`, which the code does not maintain). -/
def stInvB (st : State) : Bool :=
  (match st.valid_head with
   | none => true
   | some h => decide (h.start = 0) && decide (h.stop ≤ st.total_size))
  && (match st.valid_tail with
      | none => true
      | some t => decide (t.start ≤ t.stop) && decide (t.stop ≤ st.total_size))

/-- The buffered sector, when present, targets an LBA at or after the
file's first sector and strictly inside the extent. -/
def csInvB (pf : PartialFile) : Bool :=
  match pf.current_sector with
  | none => true
  | some c =>
      decide (pf.first_sector_nbr ≤ c.sector_nbr)
        && decide ((c.sector_nbr - pf.first_sector_nbr) * SECTOR_SIZE
              < pf.state.total_size)

/-- The writer invariant: the LBA arithmetic stays below the `uint32_t`
wrap-around, and the state and buffered-sector invariants hold. -/
def pfInvB (pf : PartialFile) : Bool :=
  decide (pf.first_sector_nbr + pf.state.total_size / SECTOR_SIZE + 1 < M32)
    && decide (pf.state.total_size < M32)
    && stInvB pf.state && csInvB pf

/-! Concrete test fixtures, following the spec's end-to-end scenarios:
`SECTOR_SIZE = 512`, `total_size = 2048`, first LBA `100`. -/

/-- A freshly created `PartialFile` over a 2048-byte contiguous extent whose
first sector is LBA 100 (the spec's end-to-end scenario configuration). -/
def pfInit : PartialFile := ⟨false, 100, none, 0, ⟨2048, none, none⟩⟩

/-- A fully successful environment for one `sync` call: the double-buffer
slot is obtained, the poke and the submission succeed, the pool drains. -/
def envOk : PartialFile.SyncEnv := ⟨true, SubRes.ok, true⟩

/-- `pfInit` after `seek(1536)`. -/
def pfSeek1536 : PartialFile := (pfInit.seek 1536).2

/-- `pfInit` after writing 100 bytes of value 7 at offset 0 (all
environment operations succeeding); holds a partially filled sector. -/
def pfAfter100 : PartialFile :=
  match PartialFile.write pfInit (List.replicate 100 7) [true] [] with
  | some w => w.pf
  | none => pfInit

/-- A writer whose `write_error` flag has been set by a failed completion
callback while a partially filled sector buffer is still held. -/
def pfErr : PartialFile :=
  ⟨true, 100, some ⟨100, List.replicate 512 7⟩, 100, ⟨2048, none, none⟩⟩

/-! Helper lemmas about `ValidPart.merge`, the loop of `write`, and the
wrapping arithmetic. -/

theorem ValidPart.merge_start_le (a b : ValidPart) :
    (a.merge b).start ≤ a.start := by
  unfold ValidPart.merge
  split
  · show min a.start b.start ≤ a.start
    omega
  · exact Nat.le_refl _

theorem ValidPart.le_merge_stop (a b : ValidPart) :
    a.stop ≤ (a.merge b).stop := by
  unfold ValidPart.merge
  split
  · show a.stop ≤ max a.stop b.stop
    omega
  · exact Nat.le_refl _

theorem ValidPart.merge_start_eq_zero (a b : ValidPart) (h : a.start = 0) :
    (a.merge b).start = 0 := by
  unfold ValidPart.merge
  split
  · show min a.start b.start = 0
    omega
  · exact h

theorem ValidPart.merge_wf (a b : ValidPart) (h : a.start ≤ a.stop) :
    (a.merge b).start ≤ (a.merge b).stop := by
  unfold ValidPart.merge
  split
  · show min a.start b.start ≤ max a.stop b.stop
    omega
  · exact h

theorem ValidPart.merge_stop_le (a b : ValidPart) (T : Nat) (ha : a.stop ≤ T)
    (hb : b.stop ≤ T) : (a.merge b).stop ≤ T := by
  unfold ValidPart.merge
  split
  · show max a.stop b.stop ≤ T
    omega
  · exact ha

theorem ValidPart.merge_of_touch (a b : ValidPart) (h1 : b.start ≤ a.stop)
    (h2 : a.start ≤ b.stop) :
    a.merge b = ⟨min a.start b.start, max a.stop b.stop⟩ := by
  unfold ValidPart.merge
  rw [if_pos ⟨h1, h2⟩]

theorem ValidPart.merge_of_far (a b : ValidPart) (h : a.stop < b.start) :
    a.merge b = a := by
  unfold ValidPart.merge
  exact if_neg (by omega)

theorem ValidPart.merge_of_far2 (a b : ValidPart) (h : b.stop < a.start) :
    a.merge b = a := by
  unfold ValidPart.merge
  exact if_neg (by omega)

/-- Merging a zero-based range with a touching range, in both orders,
yields one unified zero-based range. -/
theorem ValidPart.unify (A B : ValidPart) (hA0 : A.start = 0)
    (hBwf : B.start ≤ B.stop) (hmeet : B.start ≤ A.stop) :
    A.merge B = ⟨0, max A.stop B.stop⟩
      ∧ B.merge ⟨0, max A.stop B.stop⟩ = ⟨0, max A.stop B.stop⟩ := by
  have h1 : A.merge B = ⟨0, max A.stop B.stop⟩ := by
    rw [ValidPart.merge_of_touch A B (by omega) (by omega)]
    congr 1
    omega
  refine ⟨h1, ?_⟩
  rw [ValidPart.merge_of_touch B ⟨0, max A.stop B.stop⟩ (Nat.zero_le _)
    (by show B.start ≤ max A.stop B.stop; omega)]
  congr 1
  · show min B.start 0 = 0
    omega
  · show max B.stop (max A.stop B.stop) = max A.stop B.stop
    omega

theorem PartialFile.writeGo_nil (fuel : Nat) (pf : PartialFile)
    (acqs : List Bool) (subs : List SubRes) :
    PartialFile.writeGo fuel pf [] acqs subs = some ⟨true, pf, []⟩ := by
  cases fuel <;> rfl

/-- The one-step unfolding of the `write` loop on a nonempty chunk. -/
theorem PartialFile.writeGo_cons (fuel : Nat) (pf : PartialFile) (d : Nat)
    (ds : List Nat) (acqs : List Bool) (subs : List SubRes) :
    PartialFile.writeGo (fuel + 1) pf (d :: ds) acqs subs =
      match PartialFile.openSector pf acqs with
      | none => some ⟨false, pf, []⟩
      | some (c, acqs') =>
        let sector_offset := pf.current_offset % SECTOR_SIZE
        let sector_remaining := SECTOR_SIZE - sector_offset
        let write_size := min (d :: ds).length sector_remaining
        let c' : UsbhMscRequest :=
          ⟨c.sector_nbr,
           copyInto c.data sector_offset ((d :: ds).take write_size)⟩
        let pf1 := { pf with current_sector := some c' }
        let next_offset := pf.current_offset + write_size
        if pf.state.total_size < next_offset then
          none
        else if pf.get_sector_nbr next_offset = c'.sector_nbr then
          PartialFile.writeGo fuel (pf1.seek next_offset).2
            ((d :: ds).drop write_size) acqs' subs
        else
          let r := PartialFile.write_current_sector pf1 subs
          let pf2 := { r.pf with current_sector := none }
          match PartialFile.writeGo fuel (pf2.seek next_offset).2
              ((d :: ds).drop write_size) acqs' r.env with
          | none => none
          | some w => some ⟨w.ok, w.pf, r.submitted ++ w.submitted⟩ := rfl

theorem wsub32_eq (a b : Nat) (hba : b ≤ a) (ha : a < M32) :
    wsub32 a b = a - b := by
  unfold wsub32
  rw [Nat.mod_eq_of_lt (show b < M32 by omega),
    show a + (M32 - b) = (a - b) + M32 by omega, Nat.add_mod_right]
  exact Nat.mod_eq_of_lt (by omega)

/-! Claim theorems. -/

/-- C1: the claim says `PartialFile::write` returns true only if every
sector submission it triggered succeeded synchronously, and in particular
returns false when `write_current_sector` fails synchronously.  The code
violates this: line 213 discards the status returned by
`write_current_sector`.  Writing one full sector into `pfInit` triggers
exactly one submission (third conjunct, successful environment), yet when
the poke fails during that submission the call still returns true and the
block layer has accepted nothing (first two conjuncts). -/
theorem c1_write_true_despite_failed_submission :
    (PartialFile.write pfInit (List.replicate 512 1) [true]
        [SubRes.pokeFail]).map PartialFile.WriteResult.ok = some true
    ∧ (PartialFile.write pfInit (List.replicate 512 1) [true]
        [SubRes.pokeFail]).map PartialFile.WriteResult.submitted = some []
    ∧ (PartialFile.write pfInit (List.replicate 512 1) [true]
        [SubRes.ok]).map PartialFile.WriteResult.submitted
        = some [⟨100, List.replicate 512 1⟩] := by
  decide

/-- C2: the claim says `SectorPool::sync(avoid)` waits until `N - avoid`
of the `N` slots are free and returns true once that many are free.  The
code's loop (line 369) instead exits when `popcount(slot_mask) = 32 -
avoid`, i.e. when only `avoid` slots are free (`N - avoid` slots in use):
with all 4 slots free (the constructor's mask, first two conjuncts) a
`sync(0)` should return true at once, but the loop condition fails and it
times out returning false; conversely with all 32 mask bits set (zero free
slots, last two conjuncts) it returns true immediately. -/
theorem c2_pool_sync_exit_condition_inverted :
    SectorPool.freeSlots SectorPool.size (SectorPool.initMask SectorPool.size)
        = SectorPool.size
    ∧ SectorPool.sync (SectorPool.initMask SectorPool.size) 0 [] = false
    ∧ SectorPool.freeSlots SectorPool.size (M32 - 1) = 0
    ∧ SectorPool.sync (M32 - 1) 0 [] = true := by
  decide

/-- C6 counterexample: the claim says that with `total_size = 2048` a
513-byte write at offset 1536 causes a fatal abort (`none` in this model).
It does not: the result is not `none`. -/
theorem c6_counterexample_no_abort :
    PartialFile.write pfSeek1536 (List.replicate 513 1) [true] [SubRes.ok]
      ≠ none := by
  decide

/-- C6 (amended): with `total_size = 2048`, writing 513 bytes at offset
1536 submits the full sector `[1536, 2048)` at LBA 103 and then returns
false from `write` (a soft error, logged as a write past the end of file):
the overflow is caught by the `current_offset >= total_size` check when
the loop tries to open a sector for the final byte, before the
`fatal_error` path (which requires a write crossing `total_size` inside
the last, partially used sector) can be reached. -/
theorem c6_past_end_soft_error :
    (PartialFile.write pfSeek1536 (List.replicate 513 1) [true]
        [SubRes.ok]).map PartialFile.WriteResult.ok = some false
    ∧ (PartialFile.write pfSeek1536 (List.replicate 513 1) [true]
        [SubRes.ok]).map PartialFile.WriteResult.submitted
        = some [⟨103, List.replicate 512 1⟩] := by
  decide

/-- C10: for every `bytes` argument strictly greater than `total_size`
(and representable in `size_t`), `has_valid_tail(bytes)` returns true
whenever `valid_tail` is present with `end = total_size`, for any
`valid_tail.start` (at most `total_size`): the unsigned subtraction
`total_size - bytes` wraps around to at least `total_size + 1`, so the
`start ≤ total_size - bytes` test always passes and the query reports a
valid tail longer than the entire file. -/
theorem c10_has_valid_tail_wraps (pf : PartialFile) (bytes : Nat)
    (t : ValidPart) (htail : pf.state.valid_tail = some t)
    (hstart : t.start ≤ pf.state.total_size)
    (hstop : t.stop = pf.state.total_size)
    (hgt : pf.state.total_size < bytes) (hlt : bytes < M32) :
    pf.has_valid_tail bytes = true := by
  have hM : (0:Nat) < M32 := by norm_num [M32]
  have hb : bytes % M32 = bytes := Nat.mod_eq_of_lt hlt
  have hw : wsub32 pf.state.total_size bytes
      = pf.state.total_size + (M32 - bytes) := by
    unfold wsub32
    rw [hb]
    exact Nat.mod_eq_of_lt (by omega)
  simp only [PartialFile.has_valid_tail, htail, hw, Bool.and_eq_true,
    decide_eq_true_eq]
  omega

/-- C10 witness: a concrete instance, `total_size = 2048` with tail
`[1024, 2048)` queried for 4096 trailing bytes. -/
theorem c10_has_valid_tail_wraps_witness :
    PartialFile.has_valid_tail
      ⟨false, 100, none, 0, ⟨2048, none, some ⟨1024, 2048⟩⟩⟩ 4096 = true :=
  c10_has_valid_tail_wraps _ 4096 ⟨1024, 2048⟩ rfl (by decide) rfl
    (by decide) (by norm_num [M32])

/-- C8: for every `offset` in `[0, total_size)`, `get_sector_nbr(offset)`
equals `first_sector_nbr + offset / SECTOR_SIZE`; and (provided the file
is nonempty, so that a last data sector exists) the LBA returned for
`offset = total_size` is strictly greater than the LBA of the last data
sector, thanks to the `+1` past-end rule.  The hypothesis bounds the LBAs
away from `uint32_t` wrap-around. -/
theorem c8_get_sector_nbr_mapping (pf : PartialFile)
    (hw : pf.first_sector_nbr + pf.state.total_size / SECTOR_SIZE + 1 < M32) :
    (∀ offset, offset < pf.state.total_size →
      pf.get_sector_nbr offset = pf.first_sector_nbr + offset / SECTOR_SIZE)
    ∧ (0 < pf.state.total_size →
      pf.get_sector_nbr (pf.state.total_size - 1)
        < pf.get_sector_nbr pf.state.total_size) := by
  constructor
  · intro offset hoff
    have hdiv : offset / SECTOR_SIZE ≤ pf.state.total_size / SECTOR_SIZE :=
      Nat.div_le_div_right (Nat.le_of_lt hoff)
    unfold PartialFile.get_sector_nbr
    rw [if_neg (by omega)]
    exact Nat.mod_eq_of_lt (by omega)
  · intro hpos
    have hdiv : (pf.state.total_size - 1) / SECTOR_SIZE
        ≤ pf.state.total_size / SECTOR_SIZE :=
      Nat.div_le_div_right (by omega)
    unfold PartialFile.get_sector_nbr
    rw [if_neg (by omega), if_pos (Nat.le_refl _),
      Nat.mod_eq_of_lt (by omega), Nat.mod_eq_of_lt (by omega)]
    omega

/-- C8 witness: the concrete fixture (`total_size = 2048`, first LBA 100):
offset 0 maps to LBA 100 and the past-end LBA for offset 2048 exceeds the
LBA of the last data sector (offset 2047). -/
theorem c8_get_sector_nbr_mapping_witness :
    pfInit.get_sector_nbr 0 = pfInit.first_sector_nbr + 0 / SECTOR_SIZE
    ∧ pfInit.get_sector_nbr (pfInit.state.total_size - 1)
        < pfInit.get_sector_nbr pfInit.state.total_size :=
  ⟨(c8_get_sector_nbr_mapping pfInit (by decide)).1 0 (by decide),
   (c8_get_sector_nbr_mapping pfInit (by decide)).2 (by decide)⟩

/-- The `pf` component returned by `sync` carries the same `write_error`
flag as the input (`sync` never clears or sets it synchronously). -/
theorem sync_pf_write_error (pf : PartialFile) (e : PartialFile.SyncEnv) :
    (PartialFile.sync pf e).pf.write_error = pf.write_error := by
  obtain ⟨a, s, pl⟩ := e
  cases hcs : pf.current_sector <;> cases a <;> cases s <;> cases pl <;>
    simp [PartialFile.sync, PartialFile.write_current_sector,
      PartialFile.nextSub, hcs]

/-- `seek` does not touch `write_error`. -/
theorem seek_write_error (pf : PartialFile) (o : Nat) :
    (pf.seek o).2.write_error = pf.write_error := by
  cases hcs : pf.current_sector <;> simp [PartialFile.seek, hcs]
  split <;> rfl

/-- One operation never clears a set `write_error` flag. -/
theorem step_write_error_sticky (pf : PartialFile) (op : PartialFile.Op)
    (pf' : PartialFile) (hwe : pf.write_error = true)
    (hstep : PartialFile.step pf op = some pf') : pf'.write_error = true := by
  cases op with
  | write d a s =>
      simp [PartialFile.step, PartialFile.write, hwe] at hstep
      rw [← hstep]
      exact hwe
  | seek o =>
      simp [PartialFile.step] at hstep
      rw [← hstep, seek_write_error]
      exact hwe
  | sync e =>
      simp [PartialFile.step] at hstep
      rw [← hstep, sync_pf_write_error]
      exact hwe
  | complete r =>
      cases r <;> simp [PartialFile.step, PartialFile.usbh_msc_finished] at hstep <;>
        rw [← hstep] <;> simp [hwe]

/-- No operation sequence ever clears a set `write_error` flag. -/
theorem run_write_error_sticky (ops : List PartialFile.Op) :
    ∀ (pf pf' : PartialFile), pf.write_error = true →
      PartialFile.run pf ops = some pf' → pf'.write_error = true := by
  induction ops with
  | nil =>
      intro pf pf' hwe hrun
      simp [PartialFile.run] at hrun
      rw [← hrun]
      exact hwe
  | cons o os ih =>
      intro pf pf' hwe hrun
      simp only [PartialFile.run] at hrun
      cases hstep : PartialFile.step pf o with
      | none => rw [hstep] at hrun; simp at hrun
      | some pfm =>
          rw [hstep] at hrun
          simp only [Option.some_bind] at hrun
          exact ih pfm pf' (step_write_error_sticky pf o pfm hwe hstep) hrun

/-- C3 (amended): once `write_error` is set, every subsequent `write` call
returns false immediately — with the writer unchanged and no sector
submitted — and every subsequent `sync` call returns false; the flag stays
set for the rest of the object's life (no operation clears it).  `write`
attempts no further submission, and neither does `sync` when no sector is
buffered; however — contrary to the claim's final clause — a `sync` call
that still holds a partially filled `current_sector` does submit it (see
the counterexample), because `sync` checks `write_error` only at the end. -/
theorem c3_write_error_sticky (pf : PartialFile) (hwe : pf.write_error = true) :
    (∀ data acqs subs, PartialFile.write pf data acqs subs
        = some ⟨false, pf, []⟩)
    ∧ (∀ e, (PartialFile.sync pf e).ok = false)
    ∧ (pf.current_sector = none →
        ∀ e, (PartialFile.sync pf e).submitted = [])
    ∧ (∀ ops pf', PartialFile.run pf ops = some pf' →
        pf'.write_error = true) := by
  refine ⟨?_, ?_, ?_, ?_⟩
  · intro data acqs subs
    simp [PartialFile.write, hwe]
  · intro e
    obtain ⟨a, s, pl⟩ := e
    cases hcs : pf.current_sector <;> cases a <;> cases s <;> cases pl <;>
      simp [PartialFile.sync, PartialFile.write_current_sector,
        PartialFile.nextSub, hcs, hwe]
  · intro hcs e
    obtain ⟨a, s, pl⟩ := e
    cases a <;> cases s <;> cases pl <;>
      simp [PartialFile.sync, hcs]
  · intro ops pf' hrun
    exact run_write_error_sticky ops pf pf' hwe hrun

/-- C3 witness: the sticky-error behaviour at the concrete errored writer
`pfErr`. -/
theorem c3_write_error_sticky_witness :
    PartialFile.write pfErr [1, 2, 3] [] [] = some ⟨false, pfErr, []⟩
    ∧ (PartialFile.sync pfErr envOk).ok = false :=
  ⟨(c3_write_error_sticky pfErr rfl).1 [1, 2, 3] [] [],
   (c3_write_error_sticky pfErr rfl).2.1 envOk⟩

/-- C3 counterexample: the claim also says that once `write_error` is set
no further sector submissions are attempted for the remaining life of the
object.  `sync` on an errored writer that still buffers a sector submits
that sector (one submission is handed to and accepted by the block layer)
even though the call then returns false. -/
theorem c3_counterexample_sync_submits_after_error :
    pfErr.write_error = true
    ∧ (PartialFile.sync pfErr envOk).submitted ≠ [] := by
  decide

/-- C5 (amended): a second `sync()` with no intervening `write`, under the
same environment outcomes, returns the same result as the first; when no
sector is buffered neither call submits anything.  (When a partially
filled sector is buffered, each `sync` re-submits it — see the
counterexample — so only the result, not the absence of submissions, is
preserved in general.) -/
theorem c5_sync_twice_same_result (pf : PartialFile)
    (e : PartialFile.SyncEnv) :
    (PartialFile.sync (PartialFile.sync pf e).pf e).ok
      = (PartialFile.sync pf e).ok
    ∧ (pf.current_sector = none →
        (PartialFile.sync pf e).submitted = []
        ∧ (PartialFile.sync (PartialFile.sync pf e).pf e).submitted = []) := by
  obtain ⟨a, s, pl⟩ := e
  cases hcs : pf.current_sector <;> cases a <;> cases s <;> cases pl <;>
    simp [PartialFile.sync, PartialFile.write_current_sector,
      PartialFile.nextSub, hcs]

/-- C5 witness: double `sync` on the fresh writer `pfInit` (no buffered
sector). -/
theorem c5_sync_twice_same_result_witness :
    (PartialFile.sync (PartialFile.sync pfInit envOk).pf envOk).ok
      = (PartialFile.sync pfInit envOk).ok
    ∧ ((PartialFile.sync pfInit envOk).submitted = []
        ∧ (PartialFile.sync (PartialFile.sync pfInit envOk).pf envOk).submitted
            = []) :=
  ⟨(c5_sync_twice_same_result pfInit envOk).1,
   (c5_sync_twice_same_result pfInit envOk).2 rfl⟩

/-- C5 counterexample: the claim says a second `sync()` with no
intervening `write` performs no additional sector submission.  After
writing 100 bytes into `pfInit` a partially filled sector is buffered;
the first `sync` submits it, and the second `sync` — with no `write` in
between — submits it again (its submission list is nonempty), even though
it does return the same result as the first. -/
theorem c5_counterexample_second_sync_resubmits :
    (PartialFile.sync (PartialFile.sync pfAfter100 envOk).pf envOk).submitted
      ≠ []
    ∧ (PartialFile.sync (PartialFile.sync pfAfter100 envOk).pf envOk).ok
      = (PartialFile.sync pfAfter100 envOk).ok := by
  decide

/-- C9: if `valid_head` and `valid_tail` are both present and touch or
overlap (`valid_head.end ≥ valid_tail.start`), then after the next
`extend_valid_part` call — with any new part — both become the same single
merged range `[0, e)`; `e` covers at least the old tail (so the range is
`[0, valid_tail.end)` once the final tail end is reached), and `e` is
`total_size` exactly when the extended head reaches `total_size`.  The
side hypotheses (`head.start = 0`, tail well-formed and within the file)
are the state invariants maintained by the code. -/
theorem c9_head_meets_tail_unified (st : State) (p h t : ValidPart)
    (hh : st.valid_head = some h) (ht : st.valid_tail = some t)
    (hh0 : h.start = 0) (htwf : t.start ≤ t.stop)
    (hts : t.stop ≤ st.total_size) (hmeet : t.start ≤ h.stop) :
    ∃ e, (PartialFile.extend_valid_part st p).valid_head = some ⟨0, e⟩
      ∧ (PartialFile.extend_valid_part st p).valid_tail = some ⟨0, e⟩
      ∧ t.stop ≤ e
      ∧ ((h.merge p).stop = st.total_size → e = st.total_size) := by
  have hH0 : (h.merge p).start = 0 := ValidPart.merge_start_eq_zero h p hh0
  have hHs : h.stop ≤ (h.merge p).stop := ValidPart.le_merge_stop h p
  have hT1 : (t.merge p).start ≤ t.start := ValidPart.merge_start_le t p
  have hT2 : t.stop ≤ (t.merge p).stop := ValidPart.le_merge_stop t p
  have hTwf : (t.merge p).start ≤ (t.merge p).stop := ValidPart.merge_wf t p htwf
  simp only [PartialFile.extend_valid_part, hh, ht]
  by_cases hc : (h.merge p).stop = st.total_size
  · simp only [if_pos hc]
    obtain ⟨e1, e2⟩ :=
      ValidPart.unify (h.merge p) (h.merge p) hH0 (by omega) (by omega)
    rw [e1, e2]
    exact ⟨max (h.merge p).stop (h.merge p).stop, rfl, rfl, by omega,
      fun _ => by omega⟩
  · simp only [if_neg hc]
    obtain ⟨e1, e2⟩ :=
      ValidPart.unify (h.merge p) (t.merge p) hH0 hTwf (by omega)
    rw [e1, e2]
    exact ⟨max (h.merge p).stop (t.merge p).stop, rfl, rfl, by omega,
      fun hx => by omega⟩

/-- C9 witness: head `[0, 1024)` touching tail `[1024, 1536)` in a
2048-byte file, extended with the part `[1536, 2048)`. -/
theorem c9_head_meets_tail_unified_witness :
    ∃ e, (PartialFile.extend_valid_part ⟨2048, some ⟨0, 1024⟩, some ⟨1024, 1536⟩⟩
            ⟨1536, 2048⟩).valid_head = some ⟨0, e⟩
      ∧ (PartialFile.extend_valid_part ⟨2048, some ⟨0, 1024⟩, some ⟨1024, 1536⟩⟩
            ⟨1536, 2048⟩).valid_tail = some ⟨0, e⟩
      ∧ (1536 : Nat) ≤ e
      ∧ ((((⟨0, 1024⟩ : ValidPart)).merge ⟨1536, 2048⟩).stop = 2048 → e = 2048) := by
  exact c9_head_meets_tail_unified ⟨2048, some ⟨0, 1024⟩, some ⟨1024, 1536⟩⟩
    ⟨1536, 2048⟩ ⟨0, 1024⟩ ⟨1024, 1536⟩ rfl rfl rfl (by decide) (by decide)
    (by decide)

/-- C7: writing 100 bytes at offset 0 of a fresh 2048-byte file (first LBA
100) and then calling `sync()` (with all environment operations
succeeding) performs no submission during `write` and exactly one
submission during `sync`, at LBA 100, whose buffer holds the 100 written
bytes followed by 412 zero bytes; afterwards `current_sector` is still
held and still refers to LBA 100 (with that same buffer), `valid_head`
equals `[0, 512)`, `valid_tail` is absent, and both calls succeed. -/
theorem c7_partial_sector_write_then_sync (data : List Nat)
    (h : data.length = 100) :
    PartialFile.write pfInit data [true] []
      = some ⟨true,
          ⟨false, 100, some ⟨100, data ++ List.replicate 412 0⟩, 100,
           ⟨2048, none, none⟩⟩, []⟩
    ∧ PartialFile.sync
        ⟨false, 100, some ⟨100, data ++ List.replicate 412 0⟩, 100,
         ⟨2048, none, none⟩⟩ envOk
      = ⟨true,
         ⟨false, 100, some ⟨100, data ++ List.replicate 412 0⟩, 100,
          ⟨2048, some ⟨0, 512⟩, none⟩⟩,
         [⟨100, data ++ List.replicate 412 0⟩]⟩ := by
  obtain ⟨d, ds, rfl⟩ : ∃ d ds, data = d :: ds := by
    cases data with
    | nil => simp at h
    | cons d ds => exact ⟨d, ds, rfl⟩
  have hlen : (d :: ds).length = 100 := h
  have hds : ds.length = 99 := by
    rw [List.length_cons] at hlen
    omega
  constructor
  · have e1 : PartialFile.write pfInit (d :: ds) [true] []
        = PartialFile.writeGo (ds.length + 1) pfInit (d :: ds) [true] [] := rfl
    rw [e1, PartialFile.writeGo_cons]
    rw [show PartialFile.openSector pfInit [true]
        = some (⟨100, List.replicate SECTOR_SIZE 0⟩, []) from rfl]
    dsimp only [pfInit]
    simp only [hlen, SECTOR_SIZE]
    norm_num
    simp only [PartialFile.get_sector_nbr]
    norm_num [SECTOR_SIZE, M32]
    have htk : List.take 99 ds = ds := List.take_of_length_le (by omega)
    have hdp : List.drop 99 ds = [] := List.drop_eq_nil_of_le (by omega)
    rw [htk, hdp]
    simp only [PartialFile.seek, PartialFile.get_sector_nbr]
    norm_num [SECTOR_SIZE, M32]
    rw [PartialFile.writeGo_nil]
    simp only [copyInto, List.take_zero, List.nil_append, List.length_cons,
      hds, List.cons_append, List.drop_replicate]
  · dsimp only [PartialFile.sync, envOk, PartialFile.write_current_sector,
      PartialFile.nextSub]
    rw [show PartialFile.get_offset
        ⟨false, 100, some ⟨100, (d :: ds) ++ List.replicate 412 0⟩, 100,
         ⟨2048, none, none⟩⟩ 100 = 0 by
      simp only [PartialFile.get_offset, wsub32]
      norm_num [M32, SECTOR_SIZE]]
    norm_num [PartialFile.extend_valid_part, SECTOR_SIZE]

/-- C7 witness: the scenario instantiated with one hundred bytes of
value 7. -/
theorem c7_partial_sector_write_then_sync_witness :
    PartialFile.write pfInit (List.replicate 100 7) [true] []
      = some ⟨true,
          ⟨false, 100,
           some ⟨100, List.replicate 100 7 ++ List.replicate 412 0⟩, 100,
           ⟨2048, none, none⟩⟩, []⟩
    ∧ PartialFile.sync
        ⟨false, 100,
         some ⟨100, List.replicate 100 7 ++ List.replicate 412 0⟩, 100,
         ⟨2048, none, none⟩⟩ envOk
      = ⟨true,
         ⟨false, 100,
          some ⟨100, List.replicate 100 7 ++ List.replicate 412 0⟩, 100,
          ⟨2048, some ⟨0, 512⟩, none⟩⟩,
         [⟨100, List.replicate 100 7 ++ List.replicate 412 0⟩]⟩ :=
  c7_partial_sector_write_then_sync (List.replicate 100 7) (by decide)

/-- C4 counterexample: the claim says `valid_tail`, whenever present,
satisfies `end = total_size`.  Seeking to 1024 and writing one 512-byte
sector there (first LBA 100, `total_size = 2048`) creates
`valid_tail = [1024, 1536)`, whose end is not `total_size`. -/
theorem c4_counterexample_tail_below_end :
    (PartialFile.run pfInit
        [PartialFile.Op.seek 1024,
         PartialFile.Op.write (List.replicate 512 1) [true] [SubRes.ok]]).map
      (fun pf => (pf.state.total_size, pf.state.valid_tail))
      = some (2048, some ⟨1024, 1536⟩)
    ∧ (⟨1024, 1536⟩ : ValidPart).stop ≠ 2048 := by
  decide

theorem growsB_refl (st : State) : growsB st st = true := by
  cases hh : st.valid_head <;> cases ht : st.valid_tail <;>
    simp [growsB, optGrowsB, partLEB, hh, ht]

theorem growsB_trans (s1 s2 s3 : State) (h1 : growsB s1 s2 = true)
    (h2 : growsB s2 s3 = true) : growsB s1 s3 = true := by
  cases h11 : s1.valid_head <;> cases h21 : s2.valid_head <;>
    cases h31 : s3.valid_head <;> cases h12 : s1.valid_tail <;>
    cases h22 : s2.valid_tail <;> cases h32 : s3.valid_tail <;>
    simp_all [growsB, optGrowsB, partLEB] <;> omega

theorem extend_valid_part_inv (st : State) (p : ValidPart)
    (hst : stInvB st = true) (hp1 : p.start ≤ p.stop)
    (hp2 : p.stop ≤ st.total_size) :
    stInvB (PartialFile.extend_valid_part st p) = true
    ∧ growsB st (PartialFile.extend_valid_part st p) = true
    ∧ (PartialFile.extend_valid_part st p).total_size = st.total_size := by
  cases hh : st.valid_head with
  | some h =>
    cases ht : st.valid_tail with
    | some t =>
      simp only [stInvB, hh, ht, Bool.and_eq_true, decide_eq_true_eq] at hst
      obtain ⟨⟨hh0, hhT⟩, htwf, htT⟩ := hst
      have hH0 := ValidPart.merge_start_eq_zero h p hh0
      have hHs := ValidPart.le_merge_stop h p
      have hHT : (h.merge p).stop ≤ st.total_size :=
        ValidPart.merge_stop_le h p _ hhT hp2
      have hT1 := ValidPart.merge_start_le t p
      have hT2 := ValidPart.le_merge_stop t p
      have hTwf := ValidPart.merge_wf t p htwf
      have hTT : (t.merge p).stop ≤ st.total_size :=
        ValidPart.merge_stop_le t p _ htT hp2
      simp only [PartialFile.extend_valid_part, hh, ht]
      by_cases hc : (h.merge p).stop = st.total_size
      · simp only [if_pos hc]
        obtain ⟨e1, e2⟩ :=
          ValidPart.unify (h.merge p) (h.merge p) hH0 (by omega) (by omega)
        rw [e1, e2]
        refine ⟨?_, ?_, trivial⟩
        · simp [stInvB] <;> omega
        · simp [growsB, optGrowsB, partLEB, hh, ht] <;> omega
      · simp only [if_neg hc]
        by_cases hd : (t.merge p).start ≤ (h.merge p).stop
        · obtain ⟨e1, e2⟩ :=
            ValidPart.unify (h.merge p) (t.merge p) hH0 hTwf hd
          rw [e1, e2]
          refine ⟨?_, ?_, trivial⟩
          · simp [stInvB] <;> omega
          · simp [growsB, optGrowsB, partLEB, hh, ht] <;> omega
        · rw [ValidPart.merge_of_far (h.merge p) (t.merge p) (by omega),
            ValidPart.merge_of_far2 (t.merge p) (h.merge p) (by omega)]
          refine ⟨?_, ?_, trivial⟩
          · simp [stInvB] <;> omega
          · simp [growsB, optGrowsB, partLEB, hh, ht] <;> omega
    | none =>
      simp only [stInvB, hh, ht, Bool.and_eq_true, decide_eq_true_eq] at hst
      obtain ⟨⟨hh0, hhT⟩, -⟩ := hst
      have hH0 := ValidPart.merge_start_eq_zero h p hh0
      have hHs := ValidPart.le_merge_stop h p
      have hHT : (h.merge p).stop ≤ st.total_size :=
        ValidPart.merge_stop_le h p _ hhT hp2
      simp only [PartialFile.extend_valid_part, hh, ht]
      by_cases hc : (h.merge p).stop = st.total_size
      · simp only [if_pos hc]
        obtain ⟨e1, e2⟩ :=
          ValidPart.unify (h.merge p) (h.merge p) hH0 (by omega) (by omega)
        rw [e1, e2]
        refine ⟨?_, ?_, trivial⟩
        · simp [stInvB] <;> omega
        · simp [growsB, optGrowsB, partLEB, hh, ht] <;> omega
      · simp only [if_neg hc]
        by_cases hd : (h.merge p).stop < p.start
        · simp only [if_pos hd]
          rw [ValidPart.merge_of_far (h.merge p) p (by omega),
            ValidPart.merge_of_far2 p (h.merge p) (by omega)]
          refine ⟨?_, ?_, trivial⟩
          · simp [stInvB] <;> omega
          · simp [growsB, optGrowsB, partLEB, hh, ht] <;> omega
        · simp only [if_neg hd]
          refine ⟨?_, ?_, trivial⟩
          · simp [stInvB] <;> omega
          · simp [growsB, optGrowsB, partLEB, hh, ht] <;> omega
  | none =>
    cases ht : st.valid_tail with
    | some t =>
      simp only [stInvB, hh, ht, Bool.and_eq_true, decide_eq_true_eq] at hst
      obtain ⟨-, htwf, htT⟩ := hst
      have hT1 := ValidPart.merge_start_le t p
      have hT2 := ValidPart.le_merge_stop t p
      have hTwf := ValidPart.merge_wf t p htwf
      have hTT : (t.merge p).stop ≤ st.total_size :=
        ValidPart.merge_stop_le t p _ htT hp2
      simp only [PartialFile.extend_valid_part, hh, ht]
      by_cases hz : p.start = 0
      · simp only [if_pos hz]
        by_cases hc : p.stop = st.total_size
        · simp only [if_pos hc]
          obtain ⟨e1, e2⟩ := ValidPart.unify p p hz (by omega) (by omega)
          rw [e1, e2]
          refine ⟨?_, ?_, trivial⟩
          · simp [stInvB] <;> omega
          · simp [growsB, optGrowsB, partLEB, hh, ht] <;> omega
        · simp only [if_neg hc]
          by_cases hd : (t.merge p).start ≤ p.stop
          · obtain ⟨e1, e2⟩ := ValidPart.unify p (t.merge p) hz hTwf hd
            rw [e1, e2]
            refine ⟨?_, ?_, trivial⟩
            · simp [stInvB] <;> omega
            · simp [growsB, optGrowsB, partLEB, hh, ht] <;> omega
          · rw [ValidPart.merge_of_far p (t.merge p) (by omega),
              ValidPart.merge_of_far2 (t.merge p) p (by omega)]
            refine ⟨?_, ?_, trivial⟩
            · simp [stInvB] <;> omega
            · simp [growsB, optGrowsB, partLEB, hh, ht] <;> omega
      · simp only [if_neg hz]
        refine ⟨?_, ?_, trivial⟩
        · simp [stInvB] <;> omega
        · simp [growsB, optGrowsB, partLEB, hh, ht] <;> omega
    | none =>
      simp only [PartialFile.extend_valid_part, hh, ht]
      by_cases hz : p.start = 0
      · simp only [if_pos hz]
        have hne : ¬ p.stop < p.start := by omega
        simp only [if_neg hne]
        by_cases hc : p.stop = st.total_size
        · simp only [if_pos hc]
          obtain ⟨e1, e2⟩ := ValidPart.unify p p hz (by omega) (by omega)
          rw [e1, e2]
          refine ⟨?_, ?_, trivial⟩
          · simp [stInvB] <;> omega
          · simp [growsB, optGrowsB, partLEB, hh, ht] <;> omega
        · simp only [if_neg hc]
          refine ⟨?_, ?_, trivial⟩
          · simp [stInvB] <;> omega
          · simp [growsB, optGrowsB, partLEB, hh, ht] <;> omega
      · simp only [if_neg hz]
        have hlt : 0 < p.start := by omega
        simp only [if_pos hlt]
        refine ⟨?_, ?_, trivial⟩
        · simp [stInvB] <;> omega
        · simp [growsB, optGrowsB, partLEB, hh, ht] <;> omega


theorem extend_total_size (st : State) (p : ValidPart) :
    (PartialFile.extend_valid_part st p).total_size = st.total_size := by
  unfold PartialFile.extend_valid_part
  dsimp only
  split <;> rfl

theorem get_sector_nbr_eq_of_lt (pf : PartialFile) (off : Nat)
    (hoff : off < pf.state.total_size)
    (hw : pf.first_sector_nbr + pf.state.total_size / SECTOR_SIZE + 1 < M32) :
    pf.get_sector_nbr off = pf.first_sector_nbr + off / SECTOR_SIZE := by
  have hdiv : off / SECTOR_SIZE ≤ pf.state.total_size / SECTOR_SIZE :=
    Nat.div_le_div_right (Nat.le_of_lt hoff)
  unfold PartialFile.get_sector_nbr
  rw [if_neg (by omega)]
  exact Nat.mod_eq_of_lt (by omega)

theorem get_offset_eq (pf : PartialFile) (nbr : Nat)
    (h1 : pf.first_sector_nbr ≤ nbr) (h2 : nbr < M32)
    (h3 : (nbr - pf.first_sector_nbr) * SECTOR_SIZE < M32) :
    pf.get_offset nbr = (nbr - pf.first_sector_nbr) * SECTOR_SIZE := by
  unfold PartialFile.get_offset
  rw [wsub32_eq nbr pf.first_sector_nbr h1 h2]
  exact Nat.mod_eq_of_lt h3

theorem pfInvB_parts (pf : PartialFile) (hinv : pfInvB pf = true) :
    pf.first_sector_nbr + pf.state.total_size / SECTOR_SIZE + 1 < M32
    ∧ pf.state.total_size < M32
    ∧ stInvB pf.state = true
    ∧ csInvB pf = true := by
  simp only [pfInvB, Bool.and_eq_true, decide_eq_true_eq] at hinv
  exact ⟨hinv.1.1.1, hinv.1.1.2, hinv.1.2, hinv.2⟩

theorem pfInvB_intro (pf : PartialFile)
    (h1 : pf.first_sector_nbr + pf.state.total_size / SECTOR_SIZE + 1 < M32)
    (h2 : pf.state.total_size < M32) (h3 : stInvB pf.state = true)
    (h4 : csInvB pf = true) : pfInvB pf = true := by
  simp only [pfInvB, Bool.and_eq_true, decide_eq_true_eq]
  exact ⟨⟨⟨h1, h2⟩, h3⟩, h4⟩

theorem csInvB_parts (pf : PartialFile) (c : UsbhMscRequest)
    (hcs : pf.current_sector = some c) (hinv : csInvB pf = true) :
    pf.first_sector_nbr ≤ c.sector_nbr
    ∧ (c.sector_nbr - pf.first_sector_nbr) * SECTOR_SIZE
        < pf.state.total_size := by
  simp only [csInvB, hcs, Bool.and_eq_true, decide_eq_true_eq] at hinv
  exact hinv

theorem cs_nbr_lt_M32 (pf : PartialFile) (nbr : Nat)
    (hw : pf.first_sector_nbr + pf.state.total_size / SECTOR_SIZE + 1 < M32)
    (h1 : pf.first_sector_nbr ≤ nbr)
    (h2 : (nbr - pf.first_sector_nbr) * SECTOR_SIZE
        < pf.state.total_size) : nbr < M32 := by
  have hle : nbr - pf.first_sector_nbr ≤ pf.state.total_size / SECTOR_SIZE :=
    (Nat.le_div_iff_mul_le (by norm_num [SECTOR_SIZE])).mpr (Nat.le_of_lt h2)
  omega

theorem openSector_bounds (pf : PartialFile) (acqs : List Bool)
    (c : UsbhMscRequest) (acqs2 : List Bool) (hinv : pfInvB pf = true)
    (hop : PartialFile.openSector pf acqs = some (c, acqs2)) :
    pf.first_sector_nbr ≤ c.sector_nbr
    ∧ (c.sector_nbr - pf.first_sector_nbr) * SECTOR_SIZE
        < pf.state.total_size := by
  obtain ⟨hw, hT, hst, hcsi⟩ := pfInvB_parts pf hinv
  cases hcs : pf.current_sector with
  | some c0 =>
      simp only [PartialFile.openSector, hcs, Option.some.injEq,
        Prod.mk.injEq] at hop
      obtain ⟨h1, h2⟩ := hop
      subst h1
      exact csInvB_parts pf _ hcs hcsi
  | none =>
      simp only [PartialFile.openSector, hcs] at hop
      by_cases hpast : pf.state.total_size ≤ pf.current_offset
      · simp [hpast] at hop
      · simp only [if_neg hpast] at hop
        have hoff : pf.current_offset < pf.state.total_size := by omega
        have hnb := get_sector_nbr_eq_of_lt pf pf.current_offset hoff hw
        have hmul : pf.current_offset / SECTOR_SIZE * SECTOR_SIZE
            ≤ pf.current_offset := Nat.div_mul_le_self _ _
        have hdiv : pf.current_offset / SECTOR_SIZE
            ≤ pf.state.total_size / SECTOR_SIZE :=
          Nat.div_le_div_right (Nat.le_of_lt hoff)
        have hc : c.sector_nbr = pf.get_sector_nbr pf.current_offset := by
          cases acqs with
          | nil =>
              simp only [PartialFile.nextAcq, Option.some.injEq,
                Prod.mk.injEq] at hop
              rw [← hop.1]
          | cons b r =>
              cases b
              · simp [PartialFile.nextAcq] at hop
              · simp only [PartialFile.nextAcq, Option.some.injEq,
                  Prod.mk.injEq] at hop
                rw [← hop.1]
        rw [hc, hnb]
        simp only [SECTOR_SIZE] at hmul hdiv hw ⊢
        constructor
        · omega
        · have he : pf.first_sector_nbr + pf.current_offset / 512
              - pf.first_sector_nbr = pf.current_offset / 512 := by
            omega
          rw [he]
          omega

theorem wcs_fields (pf : PartialFile) (subs : List SubRes) :
    (PartialFile.write_current_sector pf subs).pf.write_error = pf.write_error
    ∧ (PartialFile.write_current_sector pf subs).pf.first_sector_nbr
        = pf.first_sector_nbr
    ∧ (PartialFile.write_current_sector pf subs).pf.current_sector
        = pf.current_sector
    ∧ (PartialFile.write_current_sector pf subs).pf.state.total_size
        = pf.state.total_size := by
  unfold PartialFile.write_current_sector
  split
  · exact ⟨rfl, rfl, rfl, rfl⟩
  · split
    · exact ⟨rfl, rfl, rfl, rfl⟩
    · exact ⟨rfl, rfl, rfl, rfl⟩
    · exact ⟨rfl, rfl, rfl, extend_total_size pf.state _⟩

theorem pfInvB_set_cs (pf : PartialFile) (c : UsbhMscRequest)
    (hinv : pfInvB pf = true)
    (h1 : pf.first_sector_nbr ≤ c.sector_nbr)
    (h2 : (c.sector_nbr - pf.first_sector_nbr) * SECTOR_SIZE
        < pf.state.total_size) :
    pfInvB { pf with current_sector := some c } = true := by
  obtain ⟨hw, hT, hst, _⟩ := pfInvB_parts pf hinv
  refine pfInvB_intro _ hw hT hst ?_
  simp only [csInvB, Bool.and_eq_true, decide_eq_true_eq]
  exact ⟨h1, h2⟩

theorem pfInvB_clear_cs (pf : PartialFile) (hinv : pfInvB pf = true) :
    pfInvB { pf with current_sector := none } = true := by
  obtain ⟨hw, hT, hst, _⟩ := pfInvB_parts pf hinv
  exact pfInvB_intro _ hw hT hst rfl

theorem pfInvB_set_state (pf : PartialFile) (E : State)
    (htot : E.total_size = pf.state.total_size)
    (hstE : stInvB E = true) (hinv : pfInvB pf = true) :
    pfInvB { pf with state := E } = true := by
  obtain ⟨hw, hT, hst, hcsi⟩ := pfInvB_parts pf hinv
  refine pfInvB_intro _ ?_ ?_ hstE ?_
  · show pf.first_sector_nbr + E.total_size / SECTOR_SIZE + 1 < M32
    rw [htot]
    exact hw
  · show E.total_size < M32
    rw [htot]
    exact hT
  · cases hcs : pf.current_sector with
    | none => simp [csInvB, hcs]
    | some c =>
        obtain ⟨b1, b2⟩ := csInvB_parts pf c hcs hcsi
        simp only [csInvB, hcs, Bool.and_eq_true, decide_eq_true_eq]
        rw [htot]
        exact ⟨b1, b2⟩

theorem wcs_inv (pf : PartialFile) (subs : List SubRes)
    (hinv : pfInvB pf = true) :
    pfInvB (PartialFile.write_current_sector pf subs).pf = true
    ∧ growsB pf.state (PartialFile.write_current_sector pf subs).pf.state
        = true := by
  obtain ⟨hw, hT, hst, hcsi⟩ := pfInvB_parts pf hinv
  cases hcs : pf.current_sector with
  | none =>
      simp only [PartialFile.write_current_sector, hcs]
      exact ⟨hinv, growsB_refl _⟩
  | some c =>
      obtain ⟨hb1, hb2⟩ := csInvB_parts pf c hcs hcsi
      have hnlt : c.sector_nbr < M32 := cs_nbr_lt_M32 pf c.sector_nbr hw hb1 hb2
      have hgo : pf.get_offset c.sector_nbr
          = (c.sector_nbr - pf.first_sector_nbr) * SECTOR_SIZE :=
        get_offset_eq pf c.sector_nbr hb1 hnlt (by omega)
      have hext := extend_valid_part_inv pf.state
        ⟨(c.sector_nbr - pf.first_sector_nbr) * SECTOR_SIZE,
         min ((c.sector_nbr - pf.first_sector_nbr) * SECTOR_SIZE + SECTOR_SIZE)
           pf.state.total_size⟩
        hst (le_min (Nat.le_add_right _ _) (Nat.le_of_lt hb2)) (min_le_right _ _)
      have harm :
          (PartialFile.write_current_sector pf subs).pf = pf
          ∨ (PartialFile.write_current_sector pf subs).pf
            = { pf with state := (PartialFile.extend_valid_part pf.state
                ⟨(c.sector_nbr - pf.first_sector_nbr) * SECTOR_SIZE,
                 min ((c.sector_nbr - pf.first_sector_nbr) * SECTOR_SIZE
                     + SECTOR_SIZE) pf.state.total_size⟩) } := by
        cases subs with
        | nil =>
            right
            simp only [PartialFile.write_current_sector, hcs,
              PartialFile.nextSub, hgo]
        | cons s rest =>
            cases s
            · right
              simp only [PartialFile.write_current_sector, hcs,
                PartialFile.nextSub, hgo]
            · left
              simp only [PartialFile.write_current_sector, hcs,
                PartialFile.nextSub]
            · left
              simp only [PartialFile.write_current_sector, hcs,
                PartialFile.nextSub]
      cases harm with
      | inl h => rw [h]; exact ⟨hinv, growsB_refl _⟩
      | inr h =>
          rw [h]
          obtain ⟨hstE, hgrE, htotE⟩ := hext
          exact ⟨pfInvB_set_state pf _ htotE hstE hinv, hgrE⟩

theorem seek_state (pf : PartialFile) (off : Nat) :
    (pf.seek off).2.state = pf.state := by
  cases hcs : pf.current_sector <;> simp [PartialFile.seek, hcs]
  split <;> rfl

theorem seek_inv (pf : PartialFile) (off : Nat) (hinv : pfInvB pf = true) :
    pfInvB (pf.seek off).2 = true := by
  obtain ⟨hw, hT, hst, hcsi⟩ := pfInvB_parts pf hinv
  cases hcs : pf.current_sector with
  | none =>
      simp only [PartialFile.seek, hcs]
      exact pfInvB_intro _ hw hT hst rfl
  | some c =>
      obtain ⟨b1, b2⟩ := csInvB_parts pf c hcs hcsi
      simp only [PartialFile.seek, hcs]
      split
      · refine pfInvB_intro _ hw hT hst ?_
        simp only [csInvB, hcs, Bool.and_eq_true, decide_eq_true_eq]
        exact ⟨b1, b2⟩
      · exact pfInvB_intro _ hw hT hst rfl

theorem writeGo_inv (fuel : Nat) :
    ∀ (pf : PartialFile) (data : List Nat) (acqs : List Bool)
      (subs : List SubRes) (w : PartialFile.WriteResult),
      pfInvB pf = true →
      PartialFile.writeGo fuel pf data acqs subs = some w →
      pfInvB w.pf = true ∧ growsB pf.state w.pf.state = true := by
  induction fuel with
  | zero =>
      intro pf data acqs subs w hinv hgo
      cases data with
      | nil =>
          rw [PartialFile.writeGo_nil] at hgo
          obtain rfl : (⟨true, pf, []⟩ : PartialFile.WriteResult) = w :=
            (Option.some.injEq _ _).mp hgo
          exact ⟨hinv, growsB_refl _⟩
      | cons d ds =>
          obtain rfl : (⟨true, pf, []⟩ : PartialFile.WriteResult) = w :=
            (Option.some.injEq _ _).mp hgo
          exact ⟨hinv, growsB_refl _⟩
  | succ fuel ih =>
      intro pf data acqs subs w hinv hgo
      cases data with
      | nil =>
          rw [PartialFile.writeGo_nil] at hgo
          obtain rfl : (⟨true, pf, []⟩ : PartialFile.WriteResult) = w :=
            (Option.some.injEq _ _).mp hgo
          exact ⟨hinv, growsB_refl _⟩
      | cons d ds =>
          rw [PartialFile.writeGo_cons] at hgo
          cases hop : PartialFile.openSector pf acqs with
          | none =>
              rw [hop] at hgo
              obtain rfl : (⟨false, pf, []⟩ : PartialFile.WriteResult) = w :=
                (Option.some.injEq _ _).mp hgo
              exact ⟨hinv, growsB_refl _⟩
          | some ca =>
              obtain ⟨c, acqs2⟩ := ca
              rw [hop] at hgo
              obtain ⟨hb1, hb2⟩ := openSector_bounds pf acqs c acqs2 hinv hop
              dsimp only at hgo
              generalize hws : min (d :: ds).length
                  (SECTOR_SIZE - pf.current_offset % SECTOR_SIZE) = ws at hgo
              generalize hc2 : (⟨c.sector_nbr,
                  copyInto c.data (pf.current_offset % SECTOR_SIZE)
                    ((d :: ds).take ws)⟩ : UsbhMscRequest) = c2 at hgo
              generalize hpf1 : { pf with current_sector := some c2 }
                  = pf1 at hgo
              have hcnbr : c2.sector_nbr = c.sector_nbr := by rw [← hc2]
              have hinv1 : pfInvB pf1 = true := by
                rw [← hpf1]
                exact pfInvB_set_cs pf c2 hinv (hcnbr ▸ hb1) (hcnbr ▸ hb2)
              have hst1 : pf1.state = pf.state := by rw [← hpf1]
              split at hgo
              · exact absurd hgo (by simp)
              · split at hgo
                · obtain ⟨hiw, hgw⟩ := ih _ _ _ _ _
                    (seek_inv _ _ hinv1) hgo
                  refine ⟨hiw, ?_⟩
                  rw [seek_state, hst1] at hgw
                  exact hgw
                · cases hrec : PartialFile.writeGo fuel
                      ((({ (PartialFile.write_current_sector pf1 subs).pf
                          with current_sector := none }).seek
                        (pf.current_offset + ws)).2)
                      ((d :: ds).drop ws) acqs2
                      (PartialFile.write_current_sector pf1 subs).env with
                  | none =>
                      rw [hrec] at hgo
                      exact absurd hgo (by simp)
                  | some w2 =>
                      rw [hrec] at hgo
                      obtain rfl : (⟨w2.ok, w2.pf,
                          (PartialFile.write_current_sector pf1 subs).submitted
                            ++ w2.submitted⟩
                          : PartialFile.WriteResult) = w :=
                        (Option.some.injEq _ _).mp hgo
                      obtain ⟨hiw, hgw⟩ := wcs_inv pf1 subs hinv1
                      obtain ⟨hiw2, hgw2⟩ := ih _ _ _ _ _
                        (seek_inv _ _ (pfInvB_clear_cs _ hiw)) hrec
                      refine ⟨hiw2, ?_⟩
                      rw [seek_state] at hgw2
                      have hst2 : ({ (PartialFile.write_current_sector pf1
                          subs).pf with current_sector := none }
                            : PartialFile).state
                          = (PartialFile.write_current_sector pf1 subs).pf.state
                          := rfl
                      rw [hst2] at hgw2
                      rw [hst1] at hgw
                      exact growsB_trans _ _ _ hgw hgw2
theorem write_inv (pf : PartialFile) (data : List Nat) (acqs : List Bool)
    (subs : List SubRes) (w : PartialFile.WriteResult)
    (hinv : pfInvB pf = true)
    (h : PartialFile.write pf data acqs subs = some w) :
    pfInvB w.pf = true ∧ growsB pf.state w.pf.state = true := by
  unfold PartialFile.write at h
  split at h
  · obtain rfl : (⟨false, pf, []⟩ : PartialFile.WriteResult) = w :=
      (Option.some.injEq _ _).mp h
    exact ⟨hinv, growsB_refl _⟩
  · exact writeGo_inv data.length pf data acqs subs w hinv h

theorem sync_inv (pf : PartialFile) (e : PartialFile.SyncEnv)
    (hinv : pfInvB pf = true) :
    pfInvB (PartialFile.sync pf e).pf = true
    ∧ growsB pf.state (PartialFile.sync pf e).pf.state = true := by
  obtain ⟨a, su, pl⟩ := e
  cases hcs : pf.current_sector with
  | none =>
      have hpf : (PartialFile.sync pf ⟨a, su, pl⟩).pf = pf := by
        cases a <;> cases pl <;> simp [PartialFile.sync, hcs]
      rw [hpf]
      exact ⟨hinv, growsB_refl _⟩
  | some c =>
      cases a with
      | false =>
          have hpf : (PartialFile.sync pf ⟨false, su, pl⟩).pf = pf := by
            simp [PartialFile.sync, hcs]
          rw [hpf]
          exact ⟨hinv, growsB_refl _⟩
      | true =>
          have hpf : (PartialFile.sync pf ⟨true, su, pl⟩).pf
              = { (PartialFile.write_current_sector pf [su]).pf
                  with current_sector := (some ⟨c.sector_nbr, c.data⟩) } := by
            cases hstat : (PartialFile.write_current_sector pf [su]).status <;>
              cases pl <;>
              simp [PartialFile.sync, hcs, hstat]
          rw [hpf]
          obtain ⟨hiw, hgw⟩ := wcs_inv pf [su] hinv
          obtain ⟨hw0, hT0, hst0, hcsi0⟩ := pfInvB_parts pf hinv
          obtain ⟨b1, b2⟩ := csInvB_parts pf c hcs hcsi0
          obtain ⟨hfw, hff, hfc, hft⟩ := wcs_fields pf [su]
          constructor
          · refine pfInvB_set_cs _ _ hiw ?_ ?_
            · simp only [hff]
              exact b1
            · simp only [hff, hft]
              exact b2
          · exact hgw

theorem usbh_msc_finished_inv (pf : PartialFile) (r : Bool)
    (hinv : pfInvB pf = true) :
    pfInvB (PartialFile.usbh_msc_finished pf r) = true
    ∧ (PartialFile.usbh_msc_finished pf r).state = pf.state := by
  obtain ⟨hw, hT, hst, hcsi⟩ := pfInvB_parts pf hinv
  cases r with
  | true => exact ⟨hinv, rfl⟩
  | false =>
      refine ⟨pfInvB_intro _ hw hT hst ?_, rfl⟩
      exact hcsi

theorem step_inv (pf : PartialFile) (op : PartialFile.Op)
    (pf2 : PartialFile) (hinv : pfInvB pf = true)
    (hstep : PartialFile.step pf op = some pf2) :
    pfInvB pf2 = true ∧ growsB pf.state pf2.state = true := by
  cases op with
  | write d a s =>
      simp only [PartialFile.step] at hstep
      cases hw : PartialFile.write pf d a s with
      | none => rw [hw] at hstep; simp at hstep
      | some w =>
          rw [hw] at hstep
          simp only [Option.map_some, Option.map_some', Option.some.injEq]
            at hstep
          rw [← hstep]
          exact write_inv pf d a s w hinv hw
  | seek o =>
      simp only [PartialFile.step, Option.some.injEq] at hstep
      rw [← hstep]
      refine ⟨seek_inv pf o hinv, ?_⟩
      rw [seek_state]
      exact growsB_refl _
  | sync e =>
      simp only [PartialFile.step, Option.some.injEq] at hstep
      rw [← hstep]
      exact sync_inv pf e hinv
  | complete r =>
      simp only [PartialFile.step, Option.some.injEq] at hstep
      rw [← hstep]
      obtain ⟨h1, h2⟩ := usbh_msc_finished_inv pf r hinv
      refine ⟨h1, ?_⟩
      rw [h2]
      exact growsB_refl _

theorem run_inv (ops : List PartialFile.Op) :
    ∀ (pf pf2 : PartialFile), pfInvB pf = true →
      PartialFile.run pf ops = some pf2 →
      pfInvB pf2 = true ∧ growsB pf.state pf2.state = true := by
  induction ops with
  | nil =>
      intro pf pf2 hinv hrun
      simp only [PartialFile.run, Option.some.injEq] at hrun
      rw [← hrun]
      exact ⟨hinv, growsB_refl _⟩
  | cons o os ih =>
      intro pf pf2 hinv hrun
      simp only [PartialFile.run] at hrun
      cases hstep : PartialFile.step pf o with
      | none => rw [hstep] at hrun; simp at hrun
      | some pfm =>
          rw [hstep] at hrun
          simp only [Option.some_bind] at hrun
          obtain ⟨h1, h2⟩ := step_inv pf o pfm hinv hstep
          obtain ⟨h3, h4⟩ := ih pfm pf2 h1 hrun
          exact ⟨h3, growsB_trans _ _ _ h2 h4⟩
/-- C4 (amended): for every operation sequence (writes, seeks, syncs and
completion callbacks, each with arbitrary environment outcomes) that does
not abort, starting from a writer satisfying the invariant `pfInvB`:
the invariant still holds at the end — in particular `valid_head`, when
present, starts at byte 0 — and neither `valid_head` nor `valid_tail`
ever shrinks (`growsB`: a present range stays present and only grows).
The claim's remaining conjunct — `valid_tail.end = total_size` whenever
the tail is present — does not hold of the code (see the counterexample):
a sector submission disjoint from the head becomes the tail even when it
ends before `total_size`, which is why `stInvB` only requires the tail to
be well-formed and to end within the file. -/
theorem c4_head_zero_and_ranges_never_shrink (pf : PartialFile)
    (ops : List PartialFile.Op) (pf2 : PartialFile)
    (hinv : pfInvB pf = true) (hrun : PartialFile.run pf ops = some pf2) :
    pfInvB pf2 = true ∧ growsB pf.state pf2.state = true :=
  run_inv ops pf pf2 hinv hrun

/-- C4 witness: the invariant and range growth, concretely: seek to 1024
and write one 512-byte sector there on the fresh 2048-byte writer. -/
theorem c4_head_zero_and_ranges_never_shrink_witness :
    pfInvB ⟨false, 100, none, 1536, ⟨2048, none, some ⟨1024, 1536⟩⟩⟩ = true
    ∧ growsB pfInit.state
        (⟨false, 100, none, 1536, ⟨2048, none, some ⟨1024, 1536⟩⟩⟩
          : PartialFile).state = true :=
  c4_head_zero_and_ranges_never_shrink pfInit
    [PartialFile.Op.seek 1024,
     PartialFile.Op.write (List.replicate 512 1) [true] [SubRes.ok]]
    ⟨false, 100, none, 1536, ⟨2048, none, some ⟨1024, 1536⟩⟩⟩
    (by decide) (by decide)
end Transfers
